import Mathlib

/-!
Verification development for the `timetracker` repository (Rust).

The development shallowly embeds `src/lib.rs` (the `Entry` and
`RunningEntry` record types, their `Display` serialization and `FromStr`
parsing, `Entry::format_as_timeclock`) and the command logic of
`src/main.rs` (`start`, `stop`, `export`) as pure Lean functions over
file contents represented as strings.

Timestamps: the Rust code stores `chrono::DateTime<Utc>` values and
serializes them with `to_rfc3339_opts(SecondsFormat::Secs, true)`,
producing the canonical 20-character form `YYYY-MM-DDTHH:MM:SSZ`.
We embed a timestamp as six natural-number fields at second precision;
sub-second fractions are below the precision of every observation this
program makes of a timestamp (both serializers print whole seconds and
timestamps are never otherwise inspected), so they are truncated at the
parsing boundary. The embedded timestamp parser models chrono
`DateTime::<Utc>::from_str` on the space-free tokens produced by the
surrounding line split: the RFC 3339 grammar
`full-date "T" partial-time offset` with four-digit year and two-digit
fields, calendar range validation including leap years and the leap
second, optional fractional seconds, and a `Z`/`z` or `±HH:MM` numeric
offset applied to yield the UTC instant.
-/

deriving instance DecidableEq for Except

namespace TimeTracker

/-- The character for a single decimal digit value (every argument this
development applies it to is below 10, where the reduction modulo 10 is
the identity). -/
def digitChar (n : Nat) : Char := Char.ofNat (48 + n % 10)

/-- Decimal digit value of a character, if it is a digit. -/
def digitVal (c : Char) : Option Nat :=
  if 48 ≤ c.toNat ∧ c.toNat ≤ 57 then some (c.toNat - 48) else none

/-- Leap year rule of the proleptic Gregorian calendar (as used by chrono). -/
def isLeapYear (y : Nat) : Bool :=
  (y % 4 == 0 && y % 100 != 0) || y % 400 == 0

/-- Number of days in a month of a given year. -/
def daysInMonth (y m : Nat) : Nat :=
  if m = 2 then (if isLeapYear y then 29 else 28)
  else if m = 4 ∨ m = 6 ∨ m = 9 ∨ m = 11 then 30 else 31

/-- A UTC timestamp at second precision, the embedding of
`chrono::DateTime<Utc>` values as this program uses them. -/
structure DateTimeUtc where
  year : Nat
  month : Nat
  day : Nat
  hour : Nat
  minute : Nat
  second : Nat
deriving DecidableEq

/-- Calendar validity of a timestamp, with a four-digit year as required
by the canonical RFC 3339 serialization. -/
def DateTimeUtc.valid (d : DateTimeUtc) : Bool :=
  d.year ≤ 9999 && 1 ≤ d.month && d.month ≤ 12 &&
  1 ≤ d.day && d.day ≤ daysInMonth d.year d.month &&
  d.hour ≤ 23 && d.minute ≤ 59 && d.second ≤ 59

/-- The serialized form produced by
`to_rfc3339_opts(SecondsFormat::Secs, true)`: `YYYY-MM-DDTHH:MM:SSZ`. -/
def toRfc3339Chars (d : DateTimeUtc) : List Char :=
  [digitChar (d.year / 1000), digitChar (d.year / 100 % 10),
   digitChar (d.year / 10 % 10), digitChar (d.year % 10), '-',
   digitChar (d.month / 10), digitChar (d.month % 10), '-',
   digitChar (d.day / 10), digitChar (d.day % 10), 'T',
   digitChar (d.hour / 10), digitChar (d.hour % 10), ':',
   digitChar (d.minute / 10), digitChar (d.minute % 10), ':',
   digitChar (d.second / 10), digitChar (d.second % 10), 'Z']

/-- Whether a character is a decimal digit. -/
def isDigitChar (c : Char) : Bool := 48 ≤ c.toNat && c.toNat ≤ 57

/-- Day count of a proleptic-Gregorian date, where `y` is the real year
padded by 400 (so every quantity stays a natural number); standard
era/year-of-era civil-calendar arithmetic. -/
def daysFromCivilPadded (y m d : Nat) : Nat :=
  let y2 := if m ≤ 2 then y - 1 else y
  let era := y2 / 400
  let yoe := y2 % 400
  let mp := (m + 9) % 12
  let doy := (153 * mp + 2) / 5 + (d - 1)
  let doe := yoe * 365 + yoe / 4 - yoe / 100 + doy
  era * 146097 + doe

/-- Inverse of `daysFromCivilPadded`: the (padded-year, month, day)
triple of a day count. -/
def civilFromDaysPadded (z : Nat) : Nat × Nat × Nat :=
  let era := z / 146097
  let doe := z % 146097
  let yoe := (doe - doe / 1460 + doe / 36524 - doe / 146096) / 365
  let y := yoe + era * 400
  let doy := doe - (365 * yoe + yoe / 4 - yoe / 100)
  let mp := (5 * doy + 2) / 153
  let d := doy - (153 * mp + 2) / 5 + 1
  let m := if mp < 10 then mp + 3 else mp - 9
  (if m ≤ 2 then y + 1 else y, m, d)

/-- Shift a parsed local timestamp by its numeric UTC offset (`plus` is
the sign of the offset, `off` its size in seconds), as chrono does when
converting the parsed `DateTime<FixedOffset>` to `DateTime<Utc>`. A
leap second (second field 60) stays attached to its minute, offsets
being whole minutes. Timestamps that leave the model range (proleptic
year below 0) yield `none`. -/
def applyTzOffset (dt : DateTimeUtc) (plus : Bool) (off : Nat) :
    Option DateTimeUtc :=
  let leap := dt.second == 60
  let sec0 := if leap then 59 else dt.second
  let days := daysFromCivilPadded (dt.year + 400) dt.month dt.day
  let total := days * 86400 + dt.hour * 3600 + dt.minute * 60 + sec0
  let t2i : Int := if plus then (total : Int) - off else (total : Int) + off
  if t2i < 0 then none
  else
    let t2 := t2i.toNat
    let c := civilFromDaysPadded (t2 / 86400)
    if c.1 < 400 then none
    else
      some ⟨c.1 - 400, c.2.1, c.2.2, t2 % 86400 / 3600, t2 % 3600 / 60,
        if leap then t2 % 60 + 1 else t2 % 60⟩

/-- The RFC 3339 time-offset suffix: `Z`/`z` (chrono accepts both
cases), or a numeric offset `+HH:MM`/`-HH:MM` applied to the timestamp.
Nothing may follow the offset. -/
def parseTzTail (dt : DateTimeUtc) : List Char → Option DateTimeUtc
  | ['Z'] => some dt
  | ['z'] => some dt
  | [sgn, o1, o2, c, o3, o4] =>
    if (sgn = '+' ∨ sgn = '-') ∧ c = ':' then
      match digitVal o1, digitVal o2, digitVal o3, digitVal o4 with
      | some a, some b, some e, some f =>
        let oh := a * 10 + b
        let om := e * 10 + f
        if oh ≤ 23 ∧ om ≤ 59 then
          applyTzOffset dt (sgn = '+') (oh * 3600 + om * 60)
        else none
      | _, _, _, _ => none
    else none
  | _ => none

/-- The optional RFC 3339 fractional-second part (a dot followed by at
least one digit; the fraction is below second precision and chrono
truncation to seconds drops it in every observation this program
makes), then the time offset. -/
def parseFracTz (dt : DateTimeUtc) : List Char → Option DateTimeUtc
  | '.' :: rest =>
    match rest with
    | c :: rest2 =>
      if isDigitChar c then parseTzTail dt (rest2.dropWhile isDigitChar)
      else none
    | [] => none
  | rest => parseTzTail dt rest

/-- Calendar validity of the parsed civil fields, as chrono checks when
assembling the parsed date and time (month and day against the calendar
with leap years, hour/minute in range, second up to 60 for a leap
second). A four-digit year needs no range check. -/
def parsedFieldsValid (dt : DateTimeUtc) : Bool :=
  1 ≤ dt.month && dt.month ≤ 12 && 1 ≤ dt.day &&
  dt.day ≤ daysInMonth dt.year dt.month && dt.hour ≤ 23 &&
  dt.minute ≤ 59 && dt.second ≤ 60

/-- The embedded timestamp parser: chrono `DateTime::<Utc>::from_str`
(`src/lib.rs:45-46, 77`) on space-free tokens, i.e. RFC 3339
`full-date "T" partial-time offset`: four-digit year, two-digit fields,
an uppercase `T` separator (chrono parses the separator
case-sensitively), optional fractional seconds, and a `Z`/`z` or
`±HH:MM` offset, converted to UTC. -/
def parseRfc3339Chars (l : List Char) : Option DateTimeUtc :=
  match l with
  | y1 :: y2 :: y3 :: y4 :: c1 :: mo1 :: mo2 :: c2 :: d1 :: d2 :: c3 ::
    h1 :: h2 :: c4 :: mi1 :: mi2 :: c5 :: se1 :: se2 :: rest =>
    if c1 = '-' ∧ c2 = '-' ∧ c3 = 'T' ∧ c4 = ':' ∧ c5 = ':' then
      match digitVal y1, digitVal y2, digitVal y3, digitVal y4,
            digitVal mo1, digitVal mo2, digitVal d1, digitVal d2,
            digitVal h1, digitVal h2, digitVal mi1, digitVal mi2,
            digitVal se1, digitVal se2 with
      | some a, some b, some c, some d, some e, some f, some g, some h,
        some i, some j, some k, some m, some n, some p =>
        let dt : DateTimeUtc :=
          ⟨((a * 10 + b) * 10 + c) * 10 + d, e * 10 + f, g * 10 + h,
           i * 10 + j, k * 10 + m, n * 10 + p⟩
        if parsedFieldsValid dt then parseFracTz dt rest else none
      | _, _, _, _, _, _, _, _, _, _, _, _, _, _ => none
    else none
  | _ => none


/-- Rust `str::split_once(sep)`: split at the first occurrence of the
separator, or `none` when the separator does not occur. -/
def splitOnceChar (sep : Char) : List Char → Option (List Char × List Char)
  | [] => none
  | c :: rest =>
    if c = sep then some ([], rest)
    else (splitOnceChar sep rest).map (fun p => (c :: p.1, p.2))


/-- `ParseError` from `src/lib.rs` (the chrono payload of
`DateParseError` is opaque to this program and omitted). -/
inductive ParseError where
  | MissingStart
  | MissingStop
  | DateParseError
deriving DecidableEq

/-- `Entry` from `src/lib.rs`: a completed time interval. -/
structure Entry where
  start : DateTimeUtc
  stop : DateTimeUtc
  account : String
  description : Option String
deriving DecidableEq

/-- `RunningEntry` from `src/lib.rs`: an in-progress interval. -/
structure RunningEntry where
  start : DateTimeUtc
  account : String
  description : Option String
deriving DecidableEq

/-- `impl fmt::Display for Entry`:
`"{start-rfc3339-secs} {stop-rfc3339-secs} {account}"`. -/
def Entry.display (e : Entry) : String :=
  String.mk (toRfc3339Chars e.start ++ ' ' ::
    (toRfc3339Chars e.stop ++ ' ' :: e.account.data))

/-- `impl FromStr for Entry`, on the character list of the line. -/
def Entry.fromStrChars (l : List Char) : Except ParseError Entry :=
  match splitOnceChar ' ' l with
  | none => .error .MissingStart
  | some (startTok, remainder) =>
    match splitOnceChar ' ' remainder with
    | none => .error .MissingStop
    | some (stopTok, accountChars) =>
      match parseRfc3339Chars startTok with
      | none => .error .DateParseError
      | some startDt =>
        match parseRfc3339Chars stopTok with
        | none => .error .DateParseError
        | some stopDt => .ok ⟨startDt, stopDt, String.mk accountChars, none⟩

/-- `impl FromStr for Entry`. -/
def Entry.fromStr (s : String) : Except ParseError Entry :=
  Entry.fromStrChars s.data

/-- `impl fmt::Display for RunningEntry`:
`"{start-rfc3339-secs} {account}"`. -/
def RunningEntry.display (r : RunningEntry) : String :=
  String.mk (toRfc3339Chars r.start ++ ' ' :: r.account.data)

/-- `impl FromStr for RunningEntry`, on the character list of the line. -/
def RunningEntry.fromStrChars (l : List Char) : Except ParseError RunningEntry :=
  match splitOnceChar ' ' l with
  | none => .error .MissingStart
  | some (startTok, accountChars) =>
    match parseRfc3339Chars startTok with
    | none => .error .DateParseError
    | some startDt => .ok ⟨startDt, String.mk accountChars, none⟩

/-- `impl FromStr for RunningEntry`. -/
def RunningEntry.fromStr (s : String) : Except ParseError RunningEntry :=
  RunningEntry.fromStrChars s.data

/-- Timeclock timestamp format `%Y-%m-%d %H:%M:%S%z` at UTC
(the `%z` numeric offset of UTC is `+0000`). -/
def timeclockChars (d : DateTimeUtc) : List Char :=
  [digitChar (d.year / 1000), digitChar (d.year / 100 % 10),
   digitChar (d.year / 10 % 10), digitChar (d.year % 10), '-',
   digitChar (d.month / 10), digitChar (d.month % 10), '-',
   digitChar (d.day / 10), digitChar (d.day % 10), ' ',
   digitChar (d.hour / 10), digitChar (d.hour % 10), ':',
   digitChar (d.minute / 10), digitChar (d.minute % 10), ':',
   digitChar (d.second / 10), digitChar (d.second % 10), '+', '0', '0', '0', '0']

/-- `Entry::format_as_timeclock`:
`"i {start %Y-%m-%d %H:%M:%S%z} {account}\no {stop %Y-%m-%d %H:%M:%S%z}"`. -/
def Entry.format_as_timeclock (e : Entry) : String :=
  String.mk ('i' :: ' ' :: (timeclockChars e.start ++ ' ' ::
    (e.account.data ++ '\n' :: 'o' :: ' ' :: timeclockChars e.stop)))

/-- Rust `BufRead::lines` on file content: lines split at `'\n'`, with no
empty final line when the content ends in a newline, and no lines at all
for empty content. -/
def rustLines : List Char → List (List Char)
  | [] => []
  | c :: rest =>
    if c = '\n' then [] :: rustLines rest
    else
      match rustLines rest with
      | [] => [[c]]
      | line :: more => (c :: line) :: more

/-- Parse every line as a `RunningEntry`, stopping at the first failure
(the CLI calls `.unwrap()` per line, aborting on the first bad one). -/
def parseRunningLines : List (List Char) → Except ParseError (List RunningEntry)
  | [] => .ok []
  | l :: rest =>
    match RunningEntry.fromStrChars l with
    | .error e => .error e
    | .ok r =>
      match parseRunningLines rest with
      | .error e => .error e
      | .ok rs => .ok (r :: rs)

/-- Load the running-entries file content into the in-memory sequence
(`Command::Stop` and the duplicate check of `Command::Start`). -/
def loadRunning (content : String) : Except ParseError (List RunningEntry) :=
  parseRunningLines (rustLines content.data)

/-- Parse every line of the main entries file as an `Entry`
(`Command::Export`), stopping at the first failure. -/
def parseEntryLines : List (List Char) → Except ParseError (List Entry)
  | [] => .ok []
  | l :: rest =>
    match Entry.fromStrChars l with
    | .error e => .error e
    | .ok r =>
      match parseEntryLines rest with
      | .error e => .error e
      | .ok rs => .ok (r :: rs)

/-- Rust `Vec::<String>::join("\n")`. -/
def joinLines : List String → String
  | [] => ""
  | [s] => s
  | s :: rest => s ++ "\n" ++ joinLines rest

/-- Rust `Vec::remove(i)`: the removed element and the vector with the
element at index `i` taken out (`none` models the out-of-range panic). -/
def removeAt : List RunningEntry → Nat → Option (RunningEntry × List RunningEntry)
  | [], _ => none
  | x :: xs, 0 => some (x, xs)
  | x :: xs, n + 1 =>
    match removeAt xs n with
    | some (y, ys) => some (y, x :: ys)
    | none => none

/-- Rust `Iterator::position`: index of the first element satisfying the
predicate. -/
def positionIdx (p : RunningEntry → Bool) : List RunningEntry → Option Nat
  | [] => none
  | x :: xs => if p x then some 0 else (positionIdx p xs).map (· + 1)

/-- Failure modes of `Command::Start` (each is a `panic!` in the CLI). -/
inductive StartError where
  | duplicateRunningEntry
  | loadFailure (e : ParseError)
deriving DecidableEq

/-- Failure modes of `Command::Stop` (each is a `panic!` in the CLI;
`indexOutOfBounds` models the unreachable `Vec::remove` panic). -/
inductive StopError where
  | loadFailure (e : ParseError)
  | noRunningEntries
  | accountNotFound
  | ambiguousStop
  | indexOutOfBounds
deriving DecidableEq

/-- Failure modes of `Command::Export`. -/
inductive ExportError where
  | outputAlreadyExists
  | loadFailure (e : ParseError)
deriving DecidableEq

/-- `Command::Start`: `running` is the running-entries file content
(`none` when the file is absent), `now` is `Utc::now()`. On success the
result is the new running-entries file content: the code opens the file
in append mode and writes the serialized new entry plus a newline. -/
def startCmd (running : Option String) (now : DateTimeUtc) (account : String) :
    Except StartError String :=
  let newEntry : RunningEntry := ⟨now, account, none⟩
  match running with
  | none => .ok (RunningEntry.display newEntry ++ "\n")
  | some content =>
    match loadRunning content with
    | .error e => .error (.loadFailure e)
    | .ok entries =>
      if entries.any (fun r => r.account == account) then
        .error .duplicateRunningEntry
      else
        .ok (content ++ RunningEntry.display newEntry ++ "\n")

/-- Selection rule of `Command::Stop`: index of the entry to stop. -/
def selectPosition (entries : List RunningEntry) (account : Option String) :
    Except StopError Nat :=
  match account with
  | some a =>
    match positionIdx (fun r => r.account == a) entries with
    | some i => .ok i
    | none => .error .accountNotFound
  | none => if entries.length ≠ 1 then .error .ambiguousStop else .ok 0

/-- `Command::Stop`: `running` and `entryFile` are the current contents
of the running-entries file and the main entries file, `now` is
`Utc::now()`. On success the result is the completed entry, the new
running-entries file content (the remaining entries joined by newlines,
written wholesale), and the new main-file content (the serialized entry
plus a newline, appended). -/
def stopCmd (running entryFile : String) (account : Option String)
    (now : DateTimeUtc) : Except StopError (Entry × String × String) :=
  match loadRunning running with
  | .error e => .error (.loadFailure e)
  | .ok entries =>
    if entries.isEmpty then .error .noRunningEntries
    else
      match selectPosition entries account with
      | .error e => .error e
      | .ok pos =>
        match removeAt entries pos with
        | none => .error .indexOutOfBounds
        | some (r, remaining) =>
          let entry : Entry := ⟨r.start, now, r.account, r.description⟩
          .ok (entry, joinLines (remaining.map RunningEntry.display),
            entryFile ++ Entry.display entry ++ "\n")

/-- `Command::Export`: `outputExists` is whether a file already sits at
the output path, `mainContent` is the main entries file content. On
success the result is the text written to the output path. -/
def exportCmd (outputExists : Bool) (mainContent : String) :
    Except ExportError String :=
  if outputExists then .error .outputAlreadyExists
  else
    match parseEntryLines (rustLines mainContent.data) with
    | .error e => .error (.loadFailure e)
    | .ok entries => .ok (joinLines (entries.map Entry.format_as_timeclock))

theorem digitVal_digitChar : ∀ n : Nat, n < 10 → digitVal (digitChar n) = some n := by
  decide

theorem charOfDigit_ne_space : ∀ k : Nat, k < 10 → Char.ofNat (48 + k) ≠ ' ' := by
  decide

theorem charOfDigit_ne_nl : ∀ k : Nat, k < 10 → Char.ofNat (48 + k) ≠ '\n' := by
  decide

theorem digitChar_ne_space (n : Nat) : digitChar n ≠ ' ' :=
  charOfDigit_ne_space (n % 10) (Nat.mod_lt _ (by omega))

theorem digitChar_ne_nl (n : Nat) : digitChar n ≠ '\n' :=
  charOfDigit_ne_nl (n % 10) (Nat.mod_lt _ (by omega))

theorem daysInMonth_le (y m : Nat) : daysInMonth y m ≤ 31 := by
  unfold daysInMonth
  split
  · split <;> omega
  · split <;> omega

/-- Parsing inverts serialization on calendar-valid timestamps. -/
theorem parseRfc3339Chars_toRfc3339Chars (d : DateTimeUtc) (h : d.valid = true) :
    parseRfc3339Chars (toRfc3339Chars d) = some d := by
  obtain ⟨y, mo, da, ho, mi, se⟩ := d
  simp only [DateTimeUtc.valid, Bool.and_eq_true, decide_eq_true_eq] at h
  obtain ⟨⟨⟨⟨⟨⟨⟨hy, hmo1⟩, hmo2⟩, hda1⟩, hda2⟩, hho⟩, hmi⟩, hse⟩ := h
  have hda31 : da ≤ 31 := le_trans hda2 (daysInMonth_le y mo)
  have e1 : ((y / 1000 * 10 + y / 100 % 10) * 10 + y / 10 % 10) * 10 + y % 10 = y := by
    omega
  have e2 : mo / 10 * 10 + mo % 10 = mo := by omega
  have e3 : da / 10 * 10 + da % 10 = da := by omega
  have e4 : ho / 10 * 10 + ho % 10 = ho := by omega
  have e5 : mi / 10 * 10 + mi % 10 = mi := by omega
  have e6 : se / 10 * 10 + se % 10 = se := by omega
  have hpf : parsedFieldsValid ⟨y, mo, da, ho, mi, se⟩ = true := by
    simp only [parsedFieldsValid, Bool.and_eq_true, decide_eq_true_eq]
    exact ⟨⟨⟨⟨⟨⟨hmo1, hmo2⟩, hda1⟩, hda2⟩, hho⟩, hmi⟩, by omega⟩
  simp only [toRfc3339Chars, parseRfc3339Chars,
    digitVal_digitChar (y / 1000) (by omega),
    digitVal_digitChar (y / 100 % 10) (by omega),
    digitVal_digitChar (y / 10 % 10) (by omega),
    digitVal_digitChar (y % 10) (by omega),
    digitVal_digitChar (mo / 10) (by omega),
    digitVal_digitChar (mo % 10) (by omega),
    digitVal_digitChar (da / 10) (by omega),
    digitVal_digitChar (da % 10) (by omega),
    digitVal_digitChar (ho / 10) (by omega),
    digitVal_digitChar (ho % 10) (by omega),
    digitVal_digitChar (mi / 10) (by omega),
    digitVal_digitChar (mi % 10) (by omega),
    digitVal_digitChar (se / 10) (by omega),
    digitVal_digitChar (se % 10) (by omega),
    e1, e2, e3, e4, e5, e6, hpf, and_self, if_true]
  rfl

/-- No space occurs in a serialized timestamp. -/
theorem space_not_mem_toRfc3339Chars (d : DateTimeUtc) : ' ' ∉ toRfc3339Chars d := by
  intro hmem
  simp only [toRfc3339Chars, List.mem_cons, List.not_mem_nil, or_false] at hmem
  rcases hmem with h | h | h | h | h | h | h | h | h | h | h | h | h | h | h | h | h | h | h | h
  all_goals first
    | exact absurd h (by decide)
    | exact digitChar_ne_space _ h.symm
theorem splitOnceChar_append (sep : Char) (l₁ l₂ : List Char) (h : sep ∉ l₁) :
    splitOnceChar sep (l₁ ++ sep :: l₂) = some (l₁, l₂) := by
  induction l₁ with
  | nil => simp [splitOnceChar]
  | cons c rest ih =>
    have hc : c ≠ sep := fun hcs => h (hcs ▸ List.mem_cons_self c rest)
    have hrest : sep ∉ rest := fun hm => h (List.mem_cons_of_mem c hm)
    simp only [List.cons_append, splitOnceChar, if_neg hc, List.append_eq,
      ih hrest, Option.map_some']

theorem Entry.fromStrChars_of_ok (l t rem t2 acc : List Char)
    (d1 d2 : DateTimeUtc)
    (h1 : splitOnceChar ' ' l = some (t, rem))
    (h2 : splitOnceChar ' ' rem = some (t2, acc))
    (h3 : parseRfc3339Chars t = some d1)
    (h4 : parseRfc3339Chars t2 = some d2) :
    Entry.fromStrChars l = .ok ⟨d1, d2, String.mk acc, none⟩ := by
  unfold Entry.fromStrChars
  simp only [h1, h2, h3, h4]

theorem RunningEntry.fromStrChars_of_split_none (l : List Char)
    (h : splitOnceChar ' ' l = none) :
    RunningEntry.fromStrChars l = .error .MissingStart := by
  unfold RunningEntry.fromStrChars
  simp only [h]

theorem RunningEntry.fromStrChars_of_date_bad (l t acc : List Char)
    (h1 : splitOnceChar ' ' l = some (t, acc))
    (h2 : parseRfc3339Chars t = none) :
    RunningEntry.fromStrChars l = .error .DateParseError := by
  unfold RunningEntry.fromStrChars
  simp only [h1, h2]

theorem RunningEntry.fromStrChars_of_parse_ok (l t acc : List Char) (d : DateTimeUtc)
    (h1 : splitOnceChar ' ' l = some (t, acc))
    (h2 : parseRfc3339Chars t = some d) :
    RunningEntry.fromStrChars l = .ok ⟨d, String.mk acc, none⟩ := by
  unfold RunningEntry.fromStrChars
  simp only [h1, h2]

theorem positionIdx_eq_none_iff (p : RunningEntry → Bool)
    (l : List RunningEntry) :
    positionIdx p l = none ↔ ∀ r ∈ l, p r = false := by
  induction l with
  | nil => simp [positionIdx]
  | cons x xs ih =>
    by_cases hx : p x = true
    · simp [positionIdx, hx]
    · simp only [Bool.not_eq_true] at hx
      simp [positionIdx, hx, Option.map_eq_none', ih]

theorem positionIdx_eq_some (p : RunningEntry → Bool) (l : List RunningEntry)
    (i : Nat) (h : positionIdx p l = some i) :
    ∃ r, l[i]? = some r ∧ p r = true := by
  induction l generalizing i with
  | nil => simp [positionIdx] at h
  | cons x xs ih =>
    by_cases hx : p x = true
    · simp only [positionIdx, if_pos hx, Option.some.injEq] at h
      subst h
      exact ⟨x, by simp, hx⟩
    · simp only [Bool.not_eq_true] at hx
      simp only [positionIdx, hx, Bool.false_eq_true, if_false,
        Option.map_eq_some'] at h
      obtain ⟨j, hj, hji⟩ := h
      obtain ⟨r, hr, hpr⟩ := ih j hj
      exact ⟨r, by simp [← hji, hr], hpr⟩

theorem positionIdx_ne_nil (p : RunningEntry → Bool) (l : List RunningEntry)
    (i : Nat) (h : positionIdx p l = some i) : l ≠ [] := by
  intro hnil
  subst hnil
  simp [positionIdx] at h

theorem removeAt_of_get (l : List RunningEntry) (i : Nat) (r : RunningEntry)
    (h : l[i]? = some r) :
    removeAt l i = some (r, l.take i ++ l.drop (i + 1)) := by
  induction l generalizing i with
  | nil => simp at h
  | cons x xs ih =>
    cases i with
    | zero =>
      simp only [List.getElem?_cons_zero, Option.some.injEq] at h
      subst h
      rfl
    | succ n =>
      simp only [List.getElem?_cons_succ] at h
      simp only [removeAt, ih n h, List.take_succ_cons, List.drop_succ_cons,
        List.cons_append]

/-- Claim C2: for every Entry whose timestamps are representable at
second precision (UTC, seconds granularity) and whose account is
non-empty, parsing the serialized line yields the entry back, with the
description field excluded from the comparison (the parse result always
carries `description = none`). -/
theorem entry_display_fromStr_roundtrip (e : Entry)
    (h1 : e.start.valid = true) (h2 : e.stop.valid = true)
    (h3 : e.account ≠ "") :
    Entry.fromStr (Entry.display e) = .ok { e with description := none } := by
  have hs1 := space_not_mem_toRfc3339Chars e.start
  have hs2 := space_not_mem_toRfc3339Chars e.stop
  have hsp1 := splitOnceChar_append ' ' (toRfc3339Chars e.start)
    (toRfc3339Chars e.stop ++ ' ' :: e.account.data) hs1
  have hsp2 := splitOnceChar_append ' ' (toRfc3339Chars e.stop) e.account.data hs2
  have hp1 := parseRfc3339Chars_toRfc3339Chars e.start h1
  have hp2 := parseRfc3339Chars_toRfc3339Chars e.stop h2
  show Entry.fromStrChars (toRfc3339Chars e.start ++ ' ' ::
    (toRfc3339Chars e.stop ++ ' ' :: e.account.data)) = _
  rw [Entry.fromStrChars_of_ok _ _ _ _ _ _ _ hsp1 hsp2 hp1 hp2]

/-- Witness for C2 at a concrete entry (with a populated description,
which the round trip drops as the claim states). -/
theorem entry_display_fromStr_roundtrip_witness :
    Entry.fromStr (Entry.display
      ⟨⟨2021, 7, 3, 10, 0, 0⟩, ⟨2021, 7, 3, 13, 0, 0⟩, "Time Tracker", some "memo"⟩) =
      .ok ⟨⟨2021, 7, 3, 10, 0, 0⟩, ⟨2021, 7, 3, 13, 0, 0⟩, "Time Tracker", none⟩ :=
  entry_display_fromStr_roundtrip _ (by decide) (by decide) (by decide)

/-- Claim C3, counterexample: a RunningEntry with a populated
description does not round-trip in full, because parsing always sets
`description = none`. -/
theorem runningEntry_roundtrip_description_counterexample :
    RunningEntry.fromStr (RunningEntry.display
      ⟨⟨2021, 7, 3, 10, 0, 0⟩, "writing", some "draft"⟩) ≠
      .ok ⟨⟨2021, 7, 3, 10, 0, 0⟩, "writing", some "draft"⟩ := by
  decide

/-- Claim C3, amended: for every RunningEntry with a second-precision
UTC start timestamp, a non-empty account, and `description = none`,
parsing its serialization yields the entry back in full. -/
theorem runningEntry_display_fromStr_roundtrip (r : RunningEntry)
    (h1 : r.start.valid = true) (h2 : r.account ≠ "")
    (h3 : r.description = none) :
    RunningEntry.fromStr (RunningEntry.display r) = .ok r := by
  obtain ⟨st, acct, desc⟩ := r
  have h3' : desc = none := h3
  subst h3'
  have hs := space_not_mem_toRfc3339Chars st
  have hsp := splitOnceChar_append ' ' (toRfc3339Chars st) acct.data hs
  have hp := parseRfc3339Chars_toRfc3339Chars st h1
  show RunningEntry.fromStrChars (toRfc3339Chars st ++ ' ' :: acct.data) = _
  rw [RunningEntry.fromStrChars_of_parse_ok _ _ _ _ hsp hp]

/-- Witness for the amended C3 at a concrete running entry. -/
theorem runningEntry_display_fromStr_roundtrip_witness :
    RunningEntry.fromStr (RunningEntry.display
      ⟨⟨2021, 7, 3, 10, 0, 0⟩, "Time Tracker", none⟩) =
      .ok ⟨⟨2021, 7, 3, 10, 0, 0⟩, "Time Tracker", none⟩ :=
  runningEntry_display_fromStr_roundtrip _ (by decide) (by decide) (by decide)

/-- Claim C10: every successful parse of either record type yields
`description = none`, and the Display serialization of either record
type does not depend on the description field, so any in-memory
description value is lost across one serialize-then-parse cycle. -/
theorem description_never_parsed_or_serialized :
    (∀ s e, Entry.fromStr s = .ok e → e.description = none)
    ∧ (∀ s r, RunningEntry.fromStr s = .ok r → r.description = none)
    ∧ (∀ e d, Entry.display { e with description := d } = Entry.display e)
    ∧ (∀ r d, RunningEntry.display { r with description := d } =
        RunningEntry.display r) := by
  refine ⟨?_, ?_, fun e d => rfl, fun r d => rfl⟩
  · intro s e h
    unfold Entry.fromStr Entry.fromStrChars at h
    cases hsp1 : splitOnceChar ' ' s.data with
    | none => exact Except.noConfusion (by simp only [hsp1] at h; exact h)
    | some p =>
      obtain ⟨t, rem⟩ := p
      simp only [hsp1] at h
      cases hsp2 : splitOnceChar ' ' rem with
      | none => exact Except.noConfusion (by simp only [hsp2] at h; exact h)
      | some q =>
        obtain ⟨t2, acc⟩ := q
        simp only [hsp2] at h
        cases hp1 : parseRfc3339Chars t with
        | none => exact Except.noConfusion (by simp only [hp1] at h; exact h)
        | some d1 =>
          simp only [hp1] at h
          cases hp2 : parseRfc3339Chars t2 with
          | none => exact Except.noConfusion (by simp only [hp2] at h; exact h)
          | some d2 =>
            simp only [hp2, Except.ok.injEq] at h
            rw [← h]
  · intro s r h
    unfold RunningEntry.fromStr RunningEntry.fromStrChars at h
    cases hsp1 : splitOnceChar ' ' s.data with
    | none => exact Except.noConfusion (by simp only [hsp1] at h; exact h)
    | some p =>
      obtain ⟨t, acc⟩ := p
      simp only [hsp1] at h
      cases hp1 : parseRfc3339Chars t with
      | none => exact Except.noConfusion (by simp only [hp1] at h; exact h)
      | some d1 =>
        simp only [hp1, Except.ok.injEq] at h
        rw [← h]

/-- Witness for C10: the parse hypothesis discharged at a concrete
accepted input. -/
theorem description_never_parsed_or_serialized_witness :
    (⟨⟨2021, 7, 3, 10, 0, 0⟩, ⟨2021, 7, 3, 13, 0, 0⟩, "writing", none⟩ :
      Entry).description = none :=
  description_never_parsed_or_serialized.1
    "2021-07-03T10:00:00Z 2021-07-03T13:00:00Z writing" _ (by decide)

theorem stopCmd_eq (running entryFile : String) (account : Option String)
    (now : DateTimeUtc) (entries : List RunningEntry)
    (hload : loadRunning running = .ok entries) :
    stopCmd running entryFile account now =
      (if entries.isEmpty then .error .noRunningEntries
       else
        match selectPosition entries account with
        | .error e => .error e
        | .ok pos =>
          match removeAt entries pos with
          | none => .error .indexOutOfBounds
          | some (r, remaining) =>
            .ok (⟨r.start, now, r.account, r.description⟩,
              joinLines (remaining.map RunningEntry.display),
              entryFile ++
                Entry.display ⟨r.start, now, r.account, r.description⟩ ++ "\n")) := by
  unfold stopCmd
  simp only [hload]

theorem selectPosition_error_cases (entries : List RunningEntry)
    (account : Option String) (e : StopError)
    (h : selectPosition entries account = .error e) :
    e = .accountNotFound ∨ e = .ambiguousStop := by
  cases account with
  | some a =>
    unfold selectPosition at h
    cases hpos : positionIdx (fun r => r.account == a) entries with
    | some i =>
      simp only [hpos] at h
      exact Except.noConfusion h
    | none =>
      simp only [hpos, Except.error.injEq] at h
      exact Or.inl h.symm
  | none =>
    unfold selectPosition at h
    by_cases hlen : entries.length ≠ 1
    · simp only [if_pos hlen, Except.error.injEq] at h
      exact Or.inr h.symm
    · simp only [if_neg hlen] at h
      exact Except.noConfusion h

/-- Claim C4: stop with an account argument removes exactly the first
entry whose account matches, preserves the relative order of the rest
(the remainder is `take i ++ drop (i+1)`), and builds the completed
entry from the removed start, the given now, and the removed
account/description. -/
theorem stop_removes_first_matching_entry
    (running entryFile acct : String) (now : DateTimeUtc)
    (entries : List RunningEntry) (i : Nat) (r : RunningEntry)
    (hload : loadRunning running = .ok entries)
    (hfind : positionIdx (fun e => e.account == acct) entries = some i)
    (hget : entries[i]? = some r) :
    stopCmd running entryFile (some acct) now =
      .ok (⟨r.start, now, r.account, r.description⟩,
        joinLines ((entries.take i ++ entries.drop (i + 1)).map
          RunningEntry.display),
        entryFile ++
          Entry.display ⟨r.start, now, r.account, r.description⟩ ++ "\n") := by
  have hne : entries ≠ [] := positionIdx_ne_nil _ entries i hfind
  have hempty : entries.isEmpty = false := by
    cases entries with
    | nil => exact absurd rfl hne
    | cons x xs => rfl
  have hsel : selectPosition entries (some acct) = .ok i := by
    unfold selectPosition
    simp only [hfind]
  have hrem := removeAt_of_get entries i r hget
  rw [stopCmd_eq running entryFile (some acct) now entries hload]
  simp only [hempty, Bool.false_eq_true, if_false, hsel, hrem]

/-- Witness for C4: the spec example `[A@t1, B@t2, C@t3]`, `stop("B")`:
the completed entry is built for B and the remainder is `[A@t1, C@t3]`
in original order. -/
theorem stop_removes_first_matching_entry_witness :
    stopCmd ("2021-07-03T10:00:00Z a\n2021-07-03T11:00:00Z b\n" ++
        "2021-07-03T12:00:00Z c\n") "" (some "b") ⟨2021, 7, 3, 14, 0, 0⟩ =
      .ok (⟨⟨2021, 7, 3, 11, 0, 0⟩, ⟨2021, 7, 3, 14, 0, 0⟩, "b", none⟩,
        joinLines ((([⟨⟨2021, 7, 3, 10, 0, 0⟩, "a", none⟩,
            ⟨⟨2021, 7, 3, 11, 0, 0⟩, "b", none⟩,
            ⟨⟨2021, 7, 3, 12, 0, 0⟩, "c", none⟩] : List RunningEntry).take 1 ++
          ([⟨⟨2021, 7, 3, 10, 0, 0⟩, "a", none⟩,
            ⟨⟨2021, 7, 3, 11, 0, 0⟩, "b", none⟩,
            ⟨⟨2021, 7, 3, 12, 0, 0⟩, "c", none⟩] : List RunningEntry).drop 2).map
          RunningEntry.display),
        "" ++ Entry.display
          ⟨⟨2021, 7, 3, 11, 0, 0⟩, ⟨2021, 7, 3, 14, 0, 0⟩, "b", none⟩ ++ "\n") :=
  stop_removes_first_matching_entry
    ("2021-07-03T10:00:00Z a\n2021-07-03T11:00:00Z b\n" ++
      "2021-07-03T12:00:00Z c\n") "" "b" ⟨2021, 7, 3, 14, 0, 0⟩
    [⟨⟨2021, 7, 3, 10, 0, 0⟩, "a", none⟩, ⟨⟨2021, 7, 3, 11, 0, 0⟩, "b", none⟩,
      ⟨⟨2021, 7, 3, 12, 0, 0⟩, "c", none⟩] 1
    ⟨⟨2021, 7, 3, 11, 0, 0⟩, "b", none⟩
    (by decide) (by decide) (by decide)

/-- Claim C5: given a successfully loaded running sequence, stop fails
with NoRunningEntries exactly when the sequence is empty; with an
account argument and a non-empty sequence it fails with AccountNotFound
exactly when no entry matches; with no account argument it fails with
AmbiguousStop exactly when more than one entry is running. Every
failure is an `Except.error`, so no new file contents are produced. -/
theorem stop_error_taxonomy (running entryFile : String) (now : DateTimeUtc)
    (entries : List RunningEntry)
    (hload : loadRunning running = .ok entries) :
    (∀ account, stopCmd running entryFile account now =
        .error .noRunningEntries ↔ entries = [])
    ∧ (∀ a, entries ≠ [] →
        (stopCmd running entryFile (some a) now = .error .accountNotFound ↔
          ∀ r ∈ entries, r.account ≠ a))
    ∧ (stopCmd running entryFile none now = .error .ambiguousStop ↔
        1 < entries.length) := by
  refine ⟨?_, ?_, ?_⟩
  · intro account
    rw [stopCmd_eq running entryFile account now entries hload]
    cases entries with
    | nil => simp [List.isEmpty]
    | cons x xs =>
      simp only [List.isEmpty, Bool.false_eq_true, if_false]
      constructor
      · intro h
        exfalso
        cases hsel : selectPosition (x :: xs) account with
        | error e =>
          simp only [hsel, Except.error.injEq] at h
          rcases selectPosition_error_cases (x :: xs) account e hsel with he | he <;>
            (subst he; exact StopError.noConfusion h)
        | ok pos =>
          simp only [hsel] at h
          cases hrm : removeAt (x :: xs) pos with
          | none =>
            simp only [hrm, Except.error.injEq] at h
            exact StopError.noConfusion h
          | some pr =>
            obtain ⟨r, remaining⟩ := pr
            simp only [hrm] at h
            exact Except.noConfusion h
      · intro h
        exact absurd h (List.cons_ne_nil x xs)
  · intro a hne
    have hempty : entries.isEmpty = false := by
      cases entries with
      | nil => exact absurd rfl hne
      | cons x xs => rfl
    rw [stopCmd_eq running entryFile (some a) now entries hload]
    simp only [hempty, Bool.false_eq_true, if_false]
    cases hpos : positionIdx (fun r => r.account == a) entries with
    | none =>
      have hsel : selectPosition entries (some a) = .error .accountNotFound := by
        unfold selectPosition
        simp only [hpos]
      simp only [hsel]
      refine iff_of_true trivial ?_
      intro r hr
      have := (positionIdx_eq_none_iff _ entries).mp hpos r hr
      simpa using this
    | some i =>
      have hsel : selectPosition entries (some a) = .ok i := by
        unfold selectPosition
        simp only [hpos]
      obtain ⟨r, hget, hpr⟩ := positionIdx_eq_some _ entries i hpos
      simp only [hsel, removeAt_of_get entries i r hget]
      refine iff_of_false (fun h => Except.noConfusion h) ?_
      intro hall
      have hmem : r ∈ entries := by
        have hi : i < entries.length := by
          by_contra hge
          rw [List.getElem?_eq_none (by omega)] at hget
          exact Option.noConfusion hget
        have := List.getElem?_eq_getElem hi
        rw [this] at hget
        exact (Option.some.inj hget) ▸ List.getElem_mem hi
      exact hall r hmem (by simpa using hpr)
  · rw [stopCmd_eq running entryFile none now entries hload]
    cases entries with
    | nil =>
      simp only [List.isEmpty, if_true]
      exact iff_of_false (fun h => StopError.noConfusion (Except.error.inj h))
        (by simp)
    | cons x xs =>
      simp only [List.isEmpty, Bool.false_eq_true, if_false]
      cases xs with
      | nil =>
        have hsel : selectPosition [x] none = .ok 0 := by
          unfold selectPosition
          simp
        simp only [hsel, removeAt_of_get [x] 0 x (by simp)]
        exact iff_of_false (fun h => Except.noConfusion h) (by simp)
      | cons y ys =>
        have hsel : selectPosition (x :: y :: ys) none = .error .ambiguousStop := by
          unfold selectPosition
          simp [Nat.succ_ne_zero]
        simp only [hsel]
        refine iff_of_true trivial ?_
        simp [List.length_cons]

/-- Witness for C5: two running entries and no account argument fail
with AmbiguousStop. -/
theorem stop_error_taxonomy_witness :
    stopCmd "2021-07-03T10:00:00Z a\n2021-07-03T11:00:00Z b\n" "" none
      ⟨2021, 7, 3, 12, 0, 0⟩ = .error .ambiguousStop :=
  ((stop_error_taxonomy "2021-07-03T10:00:00Z a\n2021-07-03T11:00:00Z b\n" ""
      ⟨2021, 7, 3, 12, 0, 0⟩
      [⟨⟨2021, 7, 3, 10, 0, 0⟩, "a", none⟩, ⟨⟨2021, 7, 3, 11, 0, 0⟩, "b", none⟩]
      (by decide)).2.2).mpr (by decide)

/-- Claim C6: with the running file absent, start succeeds and creates
the file with the one serialized entry plus a newline; with the file
present and loaded, start fails with DuplicateRunningEntry exactly when
some existing entry has the requested account, and otherwise appends the
serialized new entry plus a newline after the unchanged prior content. -/
theorem start_append_or_duplicate (now : DateTimeUtc) (account : String) :
    (startCmd none now account =
      .ok (RunningEntry.display ⟨now, account, none⟩ ++ "\n"))
    ∧ (∀ content entries, loadRunning content = .ok entries →
        ((startCmd (some content) now account = .error .duplicateRunningEntry ↔
            ∃ r ∈ entries, r.account = account)
         ∧ ((∀ r ∈ entries, r.account ≠ account) →
            startCmd (some content) now account =
              .ok (content ++ RunningEntry.display ⟨now, account, none⟩ ++ "\n")))) := by
  refine ⟨rfl, ?_⟩
  intro content entries hload
  unfold startCmd
  simp only [hload]
  by_cases hdup : entries.any (fun r => r.account == account) = true
  · rw [if_pos hdup]
    constructor
    · refine iff_of_true rfl ?_
      obtain ⟨r, hr, hacc⟩ := List.any_eq_true.mp hdup
      exact ⟨r, hr, by simpa using hacc⟩
    · intro hall
      exfalso
      obtain ⟨r, hr, hacc⟩ := List.any_eq_true.mp hdup
      exact hall r hr (by simpa using hacc)
  · rw [if_neg hdup]
    constructor
    · refine iff_of_false (fun h => Except.noConfusion h) ?_
      rintro ⟨r, hr, hacc⟩
      exact hdup (List.any_eq_true.mpr ⟨r, hr, by simpa using hacc⟩)
    · intro _
      rfl

/-- Witness for C6: starting an account that is already running fails
with DuplicateRunningEntry. -/
theorem start_append_or_duplicate_witness :
    startCmd (some "2021-07-03T10:00:00Z work\n") ⟨2021, 7, 3, 11, 0, 0⟩
      "work" = .error .duplicateRunningEntry :=
  ((start_append_or_duplicate ⟨2021, 7, 3, 11, 0, 0⟩ "work").2
      "2021-07-03T10:00:00Z work\n" [⟨⟨2021, 7, 3, 10, 0, 0⟩, "work", none⟩]
      (by decide)).1.mpr
    ⟨⟨⟨2021, 7, 3, 10, 0, 0⟩, "work", none⟩, by decide, rfl⟩

/-- Claim C8: from an initially empty state, start("writing") at
2021-07-03T10:00:00Z leaves the running file with the single line
`2021-07-03T10:00:00Z writing`; a subsequent stop() at
2021-07-03T13:00:00Z appends the line
`2021-07-03T10:00:00Z 2021-07-03T13:00:00Z writing` to the main log and
leaves the running file empty. -/
theorem end_to_end_start_stop_example :
    startCmd none ⟨2021, 7, 3, 10, 0, 0⟩ "writing" =
      .ok "2021-07-03T10:00:00Z writing\n"
    ∧ rustLines ("2021-07-03T10:00:00Z writing\n").data =
      [("2021-07-03T10:00:00Z writing").data]
    ∧ stopCmd "2021-07-03T10:00:00Z writing\n" "" none ⟨2021, 7, 3, 13, 0, 0⟩ =
      .ok (⟨⟨2021, 7, 3, 10, 0, 0⟩, ⟨2021, 7, 3, 13, 0, 0⟩, "writing", none⟩,
        "", "2021-07-03T10:00:00Z 2021-07-03T13:00:00Z writing\n") := by
  refine ⟨by decide, by decide, by decide⟩

/-- Claim C9: export fails without writing when the output path already
exists; otherwise it writes the newline-joined two-line timeclock blocks
of all parsed entries, and on the end-to-end example log line it
produces exactly the expected block. -/
theorem export_collision_and_conversion :
    (∀ m, exportCmd true m = .error .outputAlreadyExists)
    ∧ (∀ m entries, parseEntryLines (rustLines m.data) = .ok entries →
        exportCmd false m =
          .ok (joinLines (entries.map Entry.format_as_timeclock)))
    ∧ exportCmd false "2021-07-03T10:00:00Z 2021-07-03T13:00:00Z writing\n" =
      .ok "i 2021-07-03 10:00:00+0000 writing\no 2021-07-03 13:00:00+0000" := by
  refine ⟨fun m => rfl, ?_, by decide⟩
  intro m entries hparse
  unfold exportCmd
  simp only [Bool.false_eq_true, if_false, hparse]

/-- Witness for C9: the conversion clause applied at the concrete
one-line log. -/
theorem export_collision_and_conversion_witness :
    exportCmd false "2021-07-03T10:00:00Z 2021-07-03T13:00:00Z writing\n" =
      .ok (joinLines (([⟨⟨2021, 7, 3, 10, 0, 0⟩, ⟨2021, 7, 3, 13, 0, 0⟩,
        "writing", none⟩] : List Entry).map Entry.format_as_timeclock)) :=
  export_collision_and_conversion.2.1
    "2021-07-03T10:00:00Z 2021-07-03T13:00:00Z writing\n"
    [⟨⟨2021, 7, 3, 10, 0, 0⟩, ⟨2021, 7, 3, 13, 0, 0⟩, "writing", none⟩]
    (by decide)

/-- Claim C1 (code bug): the running file does not always hold one
serialized RunningEntry per line. `stop` rewrites the file as the
newline-JOINED remaining entries, with no trailing newline
(src/main.rs:179-187), while `start` appends `entry\n` to the raw file
(src/main.rs:113-119). After start "a", start "b", stop "a", start "c",
the running file is a single line holding two concatenated serialized
entries, which parses into one entry with a corrupted account instead
of the expected sequence [b, c]. -/
theorem running_file_one_entry_per_line_violated :
    startCmd none ⟨2021, 7, 3, 10, 0, 0⟩ "a" = .ok "2021-07-03T10:00:00Z a\n"
    ∧ startCmd (some "2021-07-03T10:00:00Z a\n") ⟨2021, 7, 3, 11, 0, 0⟩ "b" =
      .ok "2021-07-03T10:00:00Z a\n2021-07-03T11:00:00Z b\n"
    ∧ stopCmd "2021-07-03T10:00:00Z a\n2021-07-03T11:00:00Z b\n" ""
        (some "a") ⟨2021, 7, 3, 12, 0, 0⟩ =
      .ok (⟨⟨2021, 7, 3, 10, 0, 0⟩, ⟨2021, 7, 3, 12, 0, 0⟩, "a", none⟩,
        "2021-07-03T11:00:00Z b",
        "2021-07-03T10:00:00Z 2021-07-03T12:00:00Z a\n")
    ∧ startCmd (some "2021-07-03T11:00:00Z b") ⟨2021, 7, 3, 13, 0, 0⟩ "c" =
      .ok "2021-07-03T11:00:00Z b2021-07-03T13:00:00Z c\n"
    ∧ (rustLines ("2021-07-03T11:00:00Z b2021-07-03T13:00:00Z c\n").data).length
        = 1
    ∧ loadRunning "2021-07-03T11:00:00Z b2021-07-03T13:00:00Z c\n" =
      .ok [⟨⟨2021, 7, 3, 11, 0, 0⟩, "b2021-07-03T13:00:00Z c", none⟩]
    ∧ loadRunning "2021-07-03T11:00:00Z b2021-07-03T13:00:00Z c\n" ≠
      .ok [⟨⟨2021, 7, 3, 11, 0, 0⟩, "b", none⟩,
        ⟨⟨2021, 7, 3, 13, 0, 0⟩, "c", none⟩] := by
  refine ⟨by decide, by decide, by decide, by decide, by decide, by decide,
    by decide⟩

end TimeTracker
